import Mathlib

/-!
Verification of the Velocity backend core against its specification.

The development shallowly embeds the Python modules `backend/storage.py`,
`backend/discovery.py` and `backend/log_stream.py`:

* POSIX paths (as manipulated by `pathlib` in a symlink-free filesystem) are
  modelled as a flag for absoluteness plus a list of components;
* IPv4/IPv6 network parsing (`ipaddress.ip_network`) is modelled as an
  executable parser over the character list of the input string;
* the filesystem seen by `list_backup_files` is a list of nodes, each with an
  absolute component path, a regular-file flag and a rational mtime;
* the asyncio `LogStream` is modelled as a state machine over the sequence of
  subscribe/unsubscribe/publish operations (asyncio is single-threaded and the
  registry lock makes each of those operations atomic, so a trace of atomic
  operations is a faithful semantics).
-/

namespace Velocity

/-! ## Character-list helpers -/

/-- Splits a character list on a separator, keeping empty segments, as
Python's `str.split(sep)` does. -/
def splitOnChar (sep : Char) : List Char → List (List Char)
  | [] => [[]]
  | c :: rest =>
    match splitOnChar sep rest with
    | [] => [[]]
    | g :: gs => if c = sep then [] :: g :: gs else (c :: g) :: gs

/-! ## POSIX path model (`pathlib` on a symlink-free filesystem)

A `PyPath` is a `pathlib.PurePosixPath`: an absoluteness flag plus the list of
components.  `pathlib` normalizes away empty components and `"."` components
at construction time and keeps `".."` components; `resolve()` makes the path
absolute against the current working directory and eliminates `".."`
textually (which agrees with `Path.resolve` whenever no symlinks are
involved).  The double-slash POSIX root (`"//x"`) is not distinguished from
the plain root. -/

structure PyPath where
  absolute : Bool
  parts : List String
deriving DecidableEq, Repr

/-- Parses a string into a `PyPath` the way `pathlib.PurePosixPath` does:
split on `/`, drop empty and `"."` components, record absoluteness. -/
def parsePath (s : String) : PyPath :=
  { absolute :=
      match s.data with
      | '/' :: _ => true
      | _ => false,
    parts := ((splitOnChar '/' s.data).map (fun cs => String.mk cs)).filter
      (fun c => c != "" && c != ".") }

/-- The `/` operator of `pathlib`: if the right operand is absolute it
replaces the left one entirely, otherwise the components are concatenated. -/
def PyPath.join (p q : PyPath) : PyPath :=
  if q.absolute then q else { absolute := p.absolute, parts := p.parts ++ q.parts }

/-- Canonicalization step of `Path.resolve`: starting from a base component
list, process components left to right, `".."` dropping the last component
(saturating at the root) and `"."` being ignored. -/
def resolveParts (start : List String) (parts : List String) : List String :=
  parts.foldl
    (fun acc c => if c = ".." then acc.dropLast else if c = "." then acc else acc ++ [c])
    start

/-- The canonical absolute form computed by `Path.resolve()` in a symlink-free
filesystem with current working directory `cwd` (given as a canonical absolute
component list). -/
def PyPath.resolve (cwd : List String) (p : PyPath) : List String :=
  resolveParts (if p.absolute then [] else cwd) p.parts

/-- The set of ancestors produced by `Path.parents` for a canonical absolute
path: all proper prefixes of the component list. -/
def pyParents (ps : List String) : List (List String) :=
  (List.range ps.length).map (fun k => ps.take k)

/-- Error raised by `resolve_backup_path` (the `ValueError("Invalid backup
path")` of `storage.py`, called `PathTraversal` in the specification). -/
inductive StorageError
  | PathTraversal
deriving DecidableEq, Repr

/-- Embedding of `storage.resolve_backup_path`:

```python
def resolve_backup_path(*, root: Path, relative_path: str) -> Path:
    candidate = (root / relative_path).resolve()
    resolved_root = root.resolve()
    if resolved_root not in candidate.parents and candidate != resolved_root:
        raise ValueError("Invalid backup path")
    return candidate
```
-/
def resolve_backup_path (cwd : List String) (root : PyPath) (relative_path : String) :
    Except StorageError (List String) :=
  let candidate := (root.join (parsePath relative_path)).resolve cwd
  let resolved_root := root.resolve cwd
  if resolved_root ∉ pyParents candidate ∧ candidate ≠ resolved_root then
    .error .PathTraversal
  else
    .ok candidate

/-! ## Network discovery model (`discovery.py` and `ipaddress.ip_network`)

`validate_subnet` delegates parsing to the standard library's
`ipaddress.ip_network(value, strict=False)`; the parser below embeds that
semantics: dotted-decimal IPv4 (exactly four octets, each at most three
decimal digits, no leading zeros, value ≤ 255), IPv6 with `::` compression,
at most four hex digits per hextet and an optional embedded dotted-decimal
tail, an optional `/` followed by a decimal prefix length (for IPv4 also a
dotted netmask or hostmask), and host bits zeroed per `strict=False`.
IPv6 zone suffixes (`%zone`) and the exotic integer/packed input forms,
which cannot arrive through this string-typed API, are not modelled. -/

/-- Numeric value of a decimal digit string. -/
def decimalVal (cs : List Char) : Nat :=
  cs.foldl (fun a c => a * 10 + (c.toNat - 48)) 0

/-- Recognizer for the hex digits accepted by `ipaddress` (`0-9a-fA-F`). -/
def isHexChar (c : Char) : Bool :=
  c.isDigit || ('a' ≤ c && c ≤ 'f') || ('A' ≤ c && c ≤ 'F')

/-- Numeric value of a hex digit string. -/
def hexVal (cs : List Char) : Nat :=
  cs.foldl
    (fun a c =>
      a * 16 + (if c.isDigit then c.toNat - 48 else if 'a' ≤ c then c.toNat - 87
                else c.toNat - 55))
    0

/-- One dotted-decimal octet (`ipaddress._parse_octet`): nonempty, decimal
digits only, at most three of them, no leading zero, value at most 255. -/
def parseOctet (cs : List Char) : Option Nat :=
  match cs with
  | [] => none
  | c :: rest =>
    if !(c :: rest).all Char.isDigit then none
    else if (c :: rest).length > 3 then none
    else if c = '0' && !rest.isEmpty then none
    else
      let v := decimalVal (c :: rest)
      if v > 255 then none else some v

/-- An IPv4 address string (`ipaddress.IPv4Address._ip_int_from_string`):
exactly four octets separated by dots. -/
def parseIPv4Addr (cs : List Char) : Option Nat :=
  match (splitOnChar '.' cs).map parseOctet with
  | [some a, some b, some c, some d] => some (((a * 256 + b) * 256 + c) * 256 + d)
  | _ => none

/-- Prefix length of a contiguous-ones netmask of the given bit width, if the
mask is of that shape (`ipaddress._prefix_from_ip_int`). -/
def prefixFromMask (width m : Nat) : Option Nat :=
  (List.range (width + 1)).find? (fun p => m = 2 ^ width - 2 ^ (width - p))

/-- Netmask-or-hostmask interpretation of an address used as a mask
(`ipaddress._prefix_from_ip_string`). -/
def prefixFromMaskOrHost (width m : Nat) : Option Nat :=
  match prefixFromMask width m with
  | some p => some p
  | none => prefixFromMask width (2 ^ width - 1 - m)

/-- A decimal prefix-length string, at most `width`
(`ipaddress._prefix_from_prefix_string`). -/
def parsePrefixLen (width : Nat) (cs : List Char) : Option Nat :=
  if !cs.isEmpty && cs.all Char.isDigit then
    let p := decimalVal cs
    if p ≤ width then some p else none
  else none

/-- The mask part of an IPv4 CIDR: a prefix length, a netmask, or a hostmask
(`IPv4Network._make_netmask`). -/
def parseNetmaskV4 (cs : List Char) : Option Nat :=
  match parsePrefixLen 32 cs with
  | some p => some p
  | none =>
    match parseIPv4Addr cs with
    | none => none
    | some m => prefixFromMaskOrHost 32 m

/-- A validated IPv4 network: base address (host bits zero) and prefix
length. -/
structure IPv4Network where
  addr : Nat
  prefixLen : Nat
deriving DecidableEq, Repr

/-- A validated IPv6 network: base address (host bits zero) and prefix
length. -/
structure IPv6Network where
  addr : Nat
  prefixLen : Nat
deriving DecidableEq, Repr

/-- Zeroes the host bits of an address (`strict=False` network
construction). -/
def applyMask (width addr p : Nat) : Nat :=
  addr / 2 ^ (width - p) * 2 ^ (width - p)

/-- An IPv4 CIDR string: address, optionally `/` and a mask
(`IPv4Network.__init__` with `strict=False`). -/
def parseIPv4NetworkStr (cs : List Char) : Option IPv4Network :=
  match splitOnChar '/' cs with
  | [a] =>
    match parseIPv4Addr a with
    | some ip => some { addr := ip, prefixLen := 32 }
    | none => none
  | [a, m] =>
    match parseIPv4Addr a, parseNetmaskV4 m with
    | some ip, some p => some { addr := applyMask 32 ip p, prefixLen := p }
    | _, _ => none
  | _ => none

/-- One IPv6 hextet (`IPv6Address._parse_hextet`): nonempty, hex digits only,
at most four of them. -/
def parseHextet (cs : List Char) : Option Nat :=
  if cs.isEmpty then none
  else if !cs.all isHexChar then none
  else if cs.length > 4 then none
  else some (hexVal cs)

/-- Parses every part as a hextet. -/
def allHextets (ps : List (List Char)) : Option (List Nat) :=
  ps.mapM parseHextet

/-- Big-endian combination of 16-bit groups. -/
def combineHextets (vals : List Nat) : Nat :=
  vals.foldl (fun a v => a * 65536 + v) 0

/-- An IPv6 address string (`IPv6Address._ip_int_from_string`): split on `:`,
optionally replace a dotted-decimal tail by its two hextets, then handle at
most one `::` compression with the standard-library's leading/trailing/length
checks. -/
def parseIPv6Addr (cs : List Char) : Option Nat :=
  if cs.isEmpty then none else
  let parts0 := splitOnChar ':' cs
  if parts0.length < 3 then none else
  let subst : Option (List (List Char)) :=
    match parts0.getLast? with
    | none => none
    | some lastP =>
      if lastP.contains '.' then
        match parseIPv4Addr lastP with
        | none => none
        | some v =>
          some (parts0.dropLast ++
            [Nat.toDigits 16 (v / 65536), Nat.toDigits 16 (v % 65536)])
      else some parts0
  match subst with
  | none => none
  | some parts =>
    if parts.length > 9 then none else
    let inner := (parts.drop 1).dropLast
    let innerEmpties := inner.filter (fun p => p.isEmpty)
    if innerEmpties.length > 1 then none else
    let headEmpty := (parts.headD ['x']).isEmpty
    let lastEmpty := (parts.getLastD ['x']).isEmpty
    if innerEmpties.length = 1 then
      let skipIdx := inner.findIdx (fun p => p.isEmpty) + 1
      let partsHi0 := skipIdx
      let partsLo0 := parts.length - skipIdx - 1
      if headEmpty && !(partsHi0 = 1) then none
      else if lastEmpty && !(partsLo0 = 1) then none
      else
        let partsHi := if headEmpty then 0 else partsHi0
        let partsLo := if lastEmpty then 0 else partsLo0
        if partsHi + partsLo > 7 then none
        else
          match allHextets (parts.take partsHi),
              allHextets (parts.drop (parts.length - partsLo)) with
          | some his, some los =>
            some (combineHextets his * 2 ^ (16 * (8 - partsHi)) + combineHextets los)
          | _, _ => none
    else
      if !(parts.length = 8) then none
      else if headEmpty || lastEmpty then none
      else
        match allHextets parts with
        | some vals => some (combineHextets vals)
        | none => none

/-- An IPv6 CIDR string: address, optionally `/` and a decimal prefix length
(`IPv6Network.__init__` with `strict=False`). -/
def parseIPv6NetworkStr (cs : List Char) : Option IPv6Network :=
  match splitOnChar '/' cs with
  | [a] =>
    match parseIPv6Addr a with
    | some ip => some { addr := ip, prefixLen := 128 }
    | none => none
  | [a, m] =>
    match parseIPv6Addr a, parsePrefixLen 128 m with
    | some ip, some p => some { addr := applyMask 128 ip p, prefixLen := p }
    | _, _ => none
  | _ => none

/-- Result of `ipaddress.ip_network`: an IPv4 or an IPv6 network. -/
inductive IPNetwork
  | v4 : IPv4Network → IPNetwork
  | v6 : IPv6Network → IPNetwork
deriving DecidableEq, Repr

/-- Embedding of `ipaddress.ip_network(value, strict=False)` on strings:
try IPv4 first, then IPv6; `none` is the `ValueError` case. -/
def ip_network (s : String) : Option IPNetwork :=
  match parseIPv4NetworkStr s.data with
  | some n => some (.v4 n)
  | none =>
    match parseIPv6NetworkStr s.data with
    | some n => some (.v6 n)
    | none => none

/-- `IPv4Network.num_addresses`. -/
def IPv4Network.num_addresses (n : IPv4Network) : Nat :=
  2 ^ (32 - n.prefixLen)

/-- Errors raised by `validate_subnet`, named as in the specification:
`InvalidFormat` is `ValueError("Invalid subnet format")`, `UnsupportedFamily`
is `ValueError("Only IPv4 subnets are supported")` and `RangeTooLarge` is
`ValueError("Subnet too large; max 4096 addresses")`. -/
inductive SubnetError
  | InvalidFormat
  | UnsupportedFamily
  | RangeTooLarge
deriving DecidableEq, Repr

/-- Embedding of `discovery.validate_subnet`:

```python
def validate_subnet(value: str) -> ipaddress.IPv4Network:
    try:
        network = ipaddress.ip_network(value, strict=False)
    except ValueError as exc:
        raise ValueError("Invalid subnet format") from exc
    if not isinstance(network, ipaddress.IPv4Network):
        raise ValueError("Only IPv4 subnets are supported")
    if network.num_addresses > 4096:
        raise ValueError("Subnet too large; max 4096 addresses")
    return network
```
-/
def validate_subnet (s : String) : Except SubnetError IPv4Network :=
  match ip_network s with
  | none => .error .InvalidFormat
  | some (.v6 _) => .error .UnsupportedFamily
  | some (.v4 n) =>
    if 4096 < n.num_addresses then .error .RangeTooLarge else .ok n

/-- `IPv4Network.hosts()` of the standard library, as a list: all addresses
except network and broadcast, except that a /31 yields both of its addresses
and a /32 yields its single address. -/
def IPv4Network.hostsList (n : IPv4Network) : List Nat :=
  if n.prefixLen = 32 then [n.addr]
  else if n.prefixLen = 31 then [n.addr, n.addr + 1]
  else List.range' (n.addr + 1) (n.num_addresses - 2)

/-- Dotted-decimal rendering of an IPv4 address (`str(IPv4Address)`). -/
def ipv4ToString (a : Nat) : String :=
  toString (a / 2 ^ 24 % 256) ++ "." ++ toString (a / 2 ^ 16 % 256) ++ "." ++
    toString (a / 2 ^ 8 % 256) ++ "." ++ toString (a % 256)

/-- One row of the discovery report built by `scan_host` inside
`scan_network`. -/
structure ScanResult where
  ip : String
  open_ports : List Nat
  protocols : List String
deriving DecidableEq, Repr

/-- Embedding of the inner `scan_host` of `discovery.scan_network`; the
outcome of `_is_open(host, port)` (actual TCP probing) is supplied as the
oracle `isOpen`:

```python
def scan_host(host: str) -> dict[str, object] | None:
    ssh_open = _is_open(host, 22)
    telnet_open = _is_open(host, 23)
    if not ssh_open and not telnet_open:
        return None
    return {
        "ip": host,
        "open_ports": [port for port, ok in ((22, ssh_open), (23, telnet_open)) if ok],
        "protocols": [name for name, ok in (("ssh", ssh_open), ("telnet", telnet_open)) if ok],
    }
```
-/
def scan_host (isOpen : String → Nat → Bool) (host : String) : Option ScanResult :=
  let ssh_open := isOpen host 22
  let telnet_open := isOpen host 23
  if !ssh_open && !telnet_open then none
  else some
    { ip := host,
      open_ports := (([(22, ssh_open), (23, telnet_open)] : List (Nat × Bool)).filter
        (fun x => x.2)).map (fun x => x.1),
      protocols := (([("ssh", ssh_open), ("telnet", telnet_open)] : List (String × Bool)).filter
        (fun x => x.2)).map (fun x => x.1) }

/-- Embedding of `discovery.scan_network`: validate, enumerate hosts in
ascending order, probe each host (`executor.map` preserves input order), and
drop the `None` rows. -/
def scan_network (isOpen : String → Nat → Bool) (subnet : String) :
    Except SubnetError (List ScanResult) :=
  match validate_subnet subnet with
  | .error e => .error e
  | .ok network =>
    let hosts := network.hostsList.map ipv4ToString
    .ok ((hosts.map (scan_host isOpen)).filterMap id)

/-- Protocol name associated to each probed port. -/
def portProtocol (p : Nat) : String :=
  if p = 22 then "ssh" else "telnet"

/-- An all-closed probe oracle, used in concrete instances. -/
def probeNone : String → Nat → Bool := fun _ _ => false

/-! ## Backup catalog model (`storage.list_backup_files`)

The filesystem is a list of nodes; each node has an absolute component path,
a regular-file flag, and a last-modified time (`st_mtime`, a float, modelled
as a rational).  `root.exists()` holds when some node has exactly the root's
path; `root.rglob("*.txt")` yields, in unspecified filesystem order, the
nodes strictly below the root whose final name component ends in `.txt`
(`fnmatch` semantics of `*.txt`); `sorted` orders `Path` objects with
`PurePath.__lt__`, which compares the case-folded *component lists*
(`_cparts`; identity case-folding on POSIX) — not the joined path strings:
`a/x.txt` sorts before `a-old/x.txt` because `"a" < "a-old"`, although
`"a/x.txt" > "a-old/x.txt"` as strings. -/

/-- Strict byte-wise comparison of character lists: Python string `<`. -/
def charListLt : List Char → List Char → Bool
  | [], [] => false
  | [], _ :: _ => true
  | _ :: _, [] => false
  | a :: as, b :: bs => if a = b then charListLt as bs else decide (a < b)

/-- Python string `a < b`. -/
def strLtb (a b : String) : Bool :=
  charListLt a.data b.data

/-- Lexicographic comparison of component lists, as Python compares the
component tuples of two paths: first differing component decides by string
`<`, and a proper prefix sorts first.  `partsLe a b` is `a <= b` in that
order. -/
def partsLe : List String → List String → Bool
  | [], _ => true
  | _ :: _, [] => false
  | x :: xs, y :: ys => if x = y then partsLe xs ys else strLtb x y

/-- One filesystem node. -/
structure FSEntry where
  parts : List String
  isFile : Bool
  mtime : ℚ
deriving DecidableEq

/-- Python `int(...)` on a float: truncation toward zero.  On the rational
model of the mtime this is T-division of the numerator by the denominator
(Lean's `Int` division rounds toward zero). -/
def pyIntTrunc (q : ℚ) : ℤ :=
  q.num / (q.den : ℤ)

/-- The `*.txt` glob pattern on a name (`fnmatch`: `*` matches any, possibly
empty, sequence, so the name must end in `.txt`). -/
def nameEndsTxt (s : String) : Bool :=
  decide (['.', 't', 'x', 't'] <:+ s.data)

/-- Whether `root.rglob("*.txt")` yields this node: strictly below the root
with a `.txt` name. -/
def rglobTxtMatch (root : List String) (e : FSEntry) : Bool :=
  decide (root <+: e.parts) && !decide (e.parts = root) &&
    nameEndsTxt (e.parts.getLastD "")

/-- One listing entry (`{"path": ..., "name": ..., "modified": ...}`). -/
structure BackupRecord where
  path : String
  name : String
  modified : String
deriving DecidableEq, Repr

/-- The listing entry built from a node:
`str(path.relative_to(root))`, `path.name`, `str(int(path.stat().st_mtime))`. -/
def backupRecordOf (root : List String) (e : FSEntry) : BackupRecord :=
  { path := String.intercalate "/" (e.parts.drop root.length),
    name := e.parts.getLastD "",
    modified := toString (pyIntTrunc e.mtime) }

/-- The order `sorted` uses on the nodes: `PurePath.__lt__` compares the
`_cparts` component lists.  All compared nodes here are absolute, so their
`_cparts` share the leading `/` marker and the component lists decide the
order. -/
def entryLe (a b : FSEntry) : Bool :=
  partsLe a.parts b.parts

/-- Sample mtime value 5/2 seconds, used in concrete instances. -/
def sampleMtime : ℚ := Rat.mk' 5 2 (by norm_num) (by norm_num)

/-- Embedding of `storage.list_backup_files`:

```python
def list_backup_files(root: Path) -> list[dict[str, str]]:
    if not root.exists():
        return []
    items: list[dict[str, str]] = []
    for path in sorted(root.rglob("*.txt")):
        if not path.is_file():
            continue
        items.append({...})
    return items
```
-/
def list_backup_files (fs : List FSEntry) (root : List String) : List BackupRecord :=
  if !fs.any (fun e => decide (e.parts = root)) then []
  else
    (((fs.filter (rglobTxtMatch root)).mergeSort entryLe).filter
      (fun e => e.isFile)).map (backupRecordOf root)

/-! ## Log broadcaster model (`log_stream.LogStream`)

`LogStream` runs under asyncio's single-threaded cooperative scheduler, and
each of its registry operations is atomic: `subscribe` adds the fresh queue
under the lock, `publish` snapshots the registry under the lock and then
enqueues with the non-suspending `put_nowait`, and the subscriber's `finally`
block discards its queue under the lock.  A trace is therefore a sequence of
atomic subscribe/unsubscribe/publish steps; a subscriber's queue is the list
of events enqueued to it, in order (`asyncio.Queue` is FIFO and `subscribe`
yields each queued item exactly once). -/

/-- One event payload, as built by `publish`:
`{"timestamp": ..., "level": ..., "message": ...}`. -/
structure LogEvent where
  timestamp : String
  level : String
  message : String
deriving DecidableEq, Repr

/-- The atomic operations on a `LogStream`: a subscriber (identified by its
queue id) joining or leaving, or a publish with the timestamp `datetime.now`
returned, the message, and the level. -/
inductive LogOp
  | subscribe (q : Nat)
  | unsubscribe (q : Nat)
  | publish (timestamp message level : String)
deriving DecidableEq, Repr

/-- The broadcaster state: the registered queues with their enqueued events
(in FIFO order). -/
structure LogStreamState where
  subs : List (Nat × List LogEvent)
deriving DecidableEq, Repr

/-- One atomic step: `subscribe` registers a fresh empty queue (a set add:
a no-op when the id is already present), `unsubscribe` discards the queue,
and `publish` enqueues the payload into every registered queue (the
point-in-time snapshot taken under the lock). -/
def LogStreamState.step (s : LogStreamState) : LogOp → LogStreamState
  | .subscribe q =>
    if s.subs.any (fun e => e.1 = q) then s else ⟨s.subs ++ [(q, [])]⟩
  | .unsubscribe q => ⟨s.subs.filter (fun e => e.1 ≠ q)⟩
  | .publish ts msg lvl =>
    ⟨s.subs.map (fun e => (e.1, e.2 ++ [{ timestamp := ts, level := lvl, message := msg }]))⟩

/-- Runs a trace of operations from a state. -/
def LogStreamState.run (s : LogStreamState) (ops : List LogOp) : LogStreamState :=
  ops.foldl LogStreamState.step s

/-- The payloads of the publishes in a trace, in trace order. -/
def pubsOf (ops : List LogOp) : List LogEvent :=
  ops.filterMap (fun op =>
    match op with
    | .publish ts msg lvl => some { timestamp := ts, level := lvl, message := msg }
    | _ => none)

/-! ### Facts about the path model -/

lemma mem_pyParents {l ps : List String} : l ∈ pyParents ps ↔ l <+: ps ∧ l ≠ ps := by
  simp only [pyParents, List.mem_map, List.mem_range]
  constructor
  · rintro ⟨k, hk, rfl⟩
    refine ⟨ List.take_prefix k ps, fun h => ?_⟩
    have hlen : (ps.take k).length = ps.length := by rw [h]
    rw [List.length_take] at hlen
    omega
  · rintro ⟨hpre, hne⟩
    refine ⟨l.length, ?_, (List.prefix_iff_eq_take.mp hpre).symm⟩
    rcases Nat.lt_or_ge l.length ps.length with h | h
    · exact h
    · exact absurd (hpre.eq_of_length (Nat.le_antisymm hpre.length_le h)) hne

lemma accept_iff_isPre {rr cand : List String} :
    (rr ∈ pyParents cand ∨ cand = rr) ↔ rr <+: cand := by
  rw [mem_pyParents]
  constructor
  · rintro (⟨h1, _⟩ | rfl)
    · exact h1
    · exact List.prefix_refl _
  · intro h
    by_cases he : cand = rr
    · exact Or.inr he
    · exact Or.inl ⟨h, fun hh => he hh.symm⟩

lemma resolve_backup_path_ok_iff (cwd : List String) (root : PyPath) (rel : String)
    (p : List String) :
    resolve_backup_path cwd root rel = .ok p ↔
      (root.resolve cwd <+: (root.join (parsePath rel)).resolve cwd ∧
       p = (root.join (parsePath rel)).resolve cwd) := by
  unfold resolve_backup_path
  by_cases h : root.resolve cwd ∉ pyParents ((root.join (parsePath rel)).resolve cwd) ∧
      (root.join (parsePath rel)).resolve cwd ≠ root.resolve cwd
  · rw [if_pos h]
    have hnp : ¬ root.resolve cwd <+: (root.join (parsePath rel)).resolve cwd := by
      intro hp
      rcases accept_iff_isPre.mpr hp with hin | heq
      · exact h.1 hin
      · exact h.2 heq
    constructor
    · intro hcontr
      exact absurd hcontr (by simp)
    · rintro ⟨hp, _⟩
      exact absurd hp hnp
  · rw [if_neg h]
    have hp : root.resolve cwd <+: (root.join (parsePath rel)).resolve cwd := by
      rcases Decidable.not_and_iff_or_not.mp h with h1 | h2
      · exact accept_iff_isPre.mp (Or.inl (Decidable.not_not.mp h1))
      · exact accept_iff_isPre.mp (Or.inr (Decidable.not_not.mp h2))
    constructor
    · intro hok
      injection hok with hok
      exact ⟨hp, hok.symm⟩
    · rintro ⟨_, rfl⟩
      rfl

lemma resolve_backup_path_error_iff (cwd : List String) (root : PyPath) (rel : String) :
    resolve_backup_path cwd root rel = .error .PathTraversal ↔
      ¬ root.resolve cwd <+: (root.join (parsePath rel)).resolve cwd := by
  unfold resolve_backup_path
  by_cases h : root.resolve cwd ∉ pyParents ((root.join (parsePath rel)).resolve cwd) ∧
      (root.join (parsePath rel)).resolve cwd ≠ root.resolve cwd
  · rw [if_pos h]
    simp only [true_iff]
    intro hp
    rcases accept_iff_isPre.mpr hp with hin | heq
    · exact h.1 hin
    · exact h.2 heq
  · rw [if_neg h]
    have hp : root.resolve cwd <+: (root.join (parsePath rel)).resolve cwd := by
      rcases Decidable.not_and_iff_or_not.mp h with h1 | h2
      · exact accept_iff_isPre.mp (Or.inl (Decidable.not_not.mp h1))
      · exact accept_iff_isPre.mp (Or.inr (Decidable.not_not.mp h2))
    constructor
    · intro hcontr
      exact absurd hcontr (by simp)
    · intro hnp
      exact absurd hp hnp

lemma resolveParts_append (start a b : List String) :
    resolveParts start (a ++ b) = resolveParts (resolveParts start a) b := by
  simp [resolveParts, List.foldl_append]

lemma resolveParts_etcpasswd (rr : List String) :
    resolveParts rr ["..", "..", "etc", "passwd"] =
      rr.dropLast.dropLast ++ ["etc", "passwd"] := by
  simp [resolveParts, List.append_assoc]

lemma prefix_dropLast2_append (rr : List String) :
    rr <+: (rr.dropLast.dropLast ++ ["etc", "passwd"]) ↔
      rr = [] ∨ rr = ["etc"] ∨ ["etc", "passwd"] <:+ rr := by
  rcases rr with _ | ⟨x, _ | ⟨y, t⟩⟩
  · simp
  · constructor
    · intro h
      rw [show ([x] : List String).dropLast.dropLast ++ ["etc", "passwd"] =
          ["etc", "passwd"] from rfl, List.cons_prefix_cons] at h
      exact Or.inr (Or.inl (by rw [h.1]))
    · rintro (h | h | h)
      · exact absurd h (by simp)
      · rw [List.cons.injEq] at h
        rw [h.1]
        exact ⟨["passwd"], rfl⟩
      · exact absurd h.length_le (by simp)
  · constructor
    · intro h
      have hlen : (x :: y :: t).length =
          ((x :: y :: t).dropLast.dropLast ++ ["etc", "passwd"]).length := by
        simp [List.length_dropLast]
      have heq := h.eq_of_length hlen
      exact Or.inr (Or.inr ⟨(x :: y :: t).dropLast.dropLast, heq.symm⟩)
    · rintro (h | h | ⟨s, hs⟩)
      · exact absurd h (by simp)
      · exact absurd h (by simp)
      · have hdrop : (s ++ ["etc", "passwd"]).dropLast.dropLast = s := by
          have h2 : s ++ ["etc", "passwd"] = (s ++ ["etc"]) ++ ["passwd"] := by
            simp
          rw [h2, List.dropLast_concat, List.dropLast_concat]
        rw [← hs, hdrop]

lemma candidate_etcpasswd (cwd : List String) (root : PyPath) :
    (root.join (parsePath "../../etc/passwd")).resolve cwd =
      (root.resolve cwd).dropLast.dropLast ++ ["etc", "passwd"] := by
  have hparse : parsePath "../../etc/passwd" =
      { absolute := false, parts := ["..", "..", "etc", "passwd"] } := by rfl
  rw [hparse]
  show resolveParts (if root.absolute then [] else cwd)
      (root.parts ++ ["..", "..", "etc", "passwd"]) = _
  rw [resolveParts_append]
  exact resolveParts_etcpasswd _

/-- C1 (amended): `resolve_backup_path` joins the caller path onto the root,
canonicalizes, and accepts exactly when the canonical result equals the
canonical root or descends from it, failing with `PathTraversal` otherwise;
the relative path `"../../etc/passwd"` is rejected for every root whose
canonical form is neither the filesystem root `/` nor `/etc` nor a path
ending in `etc/passwd`. -/
theorem resolve_backup_path_boundary (cwd : List String) (root : PyPath) (rel : String) :
    (∀ p, resolve_backup_path cwd root rel = .ok p ↔
        (root.resolve cwd <+: (root.join (parsePath rel)).resolve cwd ∧
         p = (root.join (parsePath rel)).resolve cwd)) ∧
    (resolve_backup_path cwd root rel = .error .PathTraversal ↔
        ¬ root.resolve cwd <+: (root.join (parsePath rel)).resolve cwd) ∧
    (root.resolve cwd ≠ [] → root.resolve cwd ≠ ["etc"] →
     ¬ ["etc", "passwd"] <:+ root.resolve cwd →
     resolve_backup_path cwd root "../../etc/passwd" = .error .PathTraversal) := by
  refine ⟨fun p => resolve_backup_path_ok_iff cwd root rel p,
    resolve_backup_path_error_iff cwd root rel, fun h1 h2 h3 => ?_⟩
  rw [resolve_backup_path_error_iff, candidate_etcpasswd, prefix_dropLast2_append]
  rintro (h | h | h)
  · exact h1 h
  · exact h2 h
  · exact h3 h

/-- Witness for `resolve_backup_path_boundary` at root `/srv/backups`:
the traversal string is rejected there. -/
theorem resolve_backup_path_boundary_witness :
    resolve_backup_path [] { absolute := true, parts := ["srv", "backups"] }
      "../../etc/passwd" = .error .PathTraversal :=
  (resolve_backup_path_boundary [] { absolute := true, parts := ["srv", "backups"] }
    "../../etc/passwd").2.2 (by decide) (by decide) (by decide)

/-- Counterexample to C1 as stated: for root `/etc` (and likewise for the
filesystem root `/`), `resolve(root, "../../etc/passwd")` does not fail — it
canonicalizes to `/etc/passwd`, which lies back inside the root, so the check
accepts it. -/
theorem resolve_backup_path_escape_accepted :
    resolve_backup_path [] { absolute := true, parts := ["etc"] } "../../etc/passwd" =
      .ok ["etc", "passwd"] := by rfl

/-- C10: when the caller-supplied relative path is absolute, the join discards
the root entirely; the candidate is the canonicalized supplied path on its
own, and it is accepted only if it equals or descends from the canonical
root — any absolute path not under the root fails with `PathTraversal`. -/
theorem resolve_backup_path_absolute (cwd : List String) (root : PyPath) (rel : String)
    (habs : (parsePath rel).absolute = true) :
    root.join (parsePath rel) = parsePath rel ∧
    (∀ p, resolve_backup_path cwd root rel = .ok p →
        (root.resolve cwd <+: (parsePath rel).resolve cwd ∧
         p = (parsePath rel).resolve cwd)) ∧
    (¬ root.resolve cwd <+: (parsePath rel).resolve cwd →
        resolve_backup_path cwd root rel = .error .PathTraversal) := by
  have hjoin : root.join (parsePath rel) = parsePath rel := by
    unfold PyPath.join
    rw [if_pos habs]
  refine ⟨hjoin, fun p hp => ?_, fun hnp => ?_⟩
  · have := (resolve_backup_path_ok_iff cwd root rel p).mp hp
    rwa [hjoin] at this
  · rw [resolve_backup_path_error_iff, hjoin]
    exact hnp

/-- Witness for `resolve_backup_path_absolute`: with root `/srv/backups`, the
absolute path `/etc/passwd` is rejected. -/
theorem resolve_backup_path_absolute_witness :
    (parsePath "/etc/passwd").absolute = true ∧
    resolve_backup_path [] { absolute := true, parts := ["srv", "backups"] }
      "/etc/passwd" = .error .PathTraversal :=
  ⟨by rfl,
   (resolve_backup_path_absolute [] { absolute := true, parts := ["srv", "backups"] }
     "/etc/passwd" (by rfl)).2.2 (by decide)⟩

/-! ### Facts about subnet validation -/

lemma ip_network_v4 {s : String} {n : IPv4Network}
    (h : ip_network s = some (.v4 n)) : parseIPv4NetworkStr s.data = some n := by
  unfold ip_network at h
  cases hp : parseIPv4NetworkStr s.data with
  | none =>
    rw [hp] at h
    cases hp6 : parseIPv6NetworkStr s.data with
    | none => simp [hp6] at h
    | some m => simp [hp6] at h
  | some m =>
    rw [hp] at h
    simp at h
    rw [h]

lemma parseIPv4NetworkStr_masked {cs : List Char} {n : IPv4Network}
    (h : parseIPv4NetworkStr cs = some n) :
    n.addr % 2 ^ (32 - n.prefixLen) = 0 := by
  unfold parseIPv4NetworkStr at h
  cases hsplit : splitOnChar '/' cs with
  | nil => rw [hsplit] at h; simp at h
  | cons a rest =>
    cases rest with
    | nil =>
      rw [hsplit] at h
      cases hip : parseIPv4Addr a with
      | none => simp [hip] at h
      | some ip =>
        simp [hip] at h
        rw [← h]
        simp [Nat.mod_one]
    | cons m rest2 =>
      cases rest2 with
      | nil =>
        rw [hsplit] at h
        cases hip : parseIPv4Addr a with
        | none => simp [hip] at h
        | some ip =>
          cases hm : parseNetmaskV4 m with
          | none => simp [hip, hm] at h
          | some p =>
            simp [hip, hm] at h
            rw [← h]
            show applyMask 32 ip p % 2 ^ (32 - p) = 0
            unfold applyMask
            exact Nat.mul_mod_left _ _
      | cons _ _ => rw [hsplit] at h; simp at h

/-- C2: for every subnet string parsing to an IPv4 network with more than
4096 addresses, `validate_subnet` fails with `RangeTooLarge`; with exactly
4096 addresses it succeeds. -/
theorem validate_subnet_range_limit (s : String) (n : IPv4Network)
    (h : ip_network s = some (.v4 n)) :
    (4096 < n.num_addresses → validate_subnet s = .error .RangeTooLarge) ∧
    (n.num_addresses = 4096 → validate_subnet s = .ok n) := by
  have hv : validate_subnet s =
      if 4096 < n.num_addresses then .error .RangeTooLarge else .ok n := by
    simp only [validate_subnet, h]
  exact ⟨fun hgt => by rw [hv, if_pos hgt], fun heq => by rw [hv, if_neg (by omega)]⟩

/-- Witness for `validate_subnet_range_limit`: the /20 network `10.0.0.0/20`
has exactly 4096 addresses and validates, while `10.0.0.0/8` exceeds the cap
and is rejected. -/
theorem validate_subnet_range_limit_witness :
    ip_network "10.0.0.0/20" = some (.v4 { addr := 167772160, prefixLen := 20 }) ∧
    ({ addr := 167772160, prefixLen := 20 } : IPv4Network).num_addresses = 4096 ∧
    validate_subnet "10.0.0.0/20" = .ok { addr := 167772160, prefixLen := 20 } ∧
    validate_subnet "10.0.0.0/8" = .error .RangeTooLarge :=
  ⟨by rfl, by rfl,
   (validate_subnet_range_limit "10.0.0.0/20"
     { addr := 167772160, prefixLen := 20 } (by rfl)).2 (by rfl),
   (validate_subnet_range_limit "10.0.0.0/8"
     { addr := 167772160, prefixLen := 8 } (by rfl)).1 (by decide)⟩

/-- C8: `validate_subnet` fails with `InvalidFormat` on anything that is not
CIDR syntax, with `UnsupportedFamily` on any network that parses but is not
IPv4, and the three failure modes are pairwise distinguishable. -/
theorem validate_subnet_error_taxonomy (s : String) :
    (ip_network s = none → validate_subnet s = .error .InvalidFormat) ∧
    (∀ n6 : IPv6Network, ip_network s = some (.v6 n6) →
        validate_subnet s = .error .UnsupportedFamily) ∧
    (SubnetError.InvalidFormat ≠ SubnetError.UnsupportedFamily ∧
     SubnetError.InvalidFormat ≠ SubnetError.RangeTooLarge ∧
     SubnetError.UnsupportedFamily ≠ SubnetError.RangeTooLarge) := by
  refine ⟨fun h => ?_, fun n6 h => ?_, by decide, by decide, by decide⟩
  · simp only [validate_subnet, h]
  · simp only [validate_subnet, h]

/-- Witness for `validate_subnet_error_taxonomy`: `"not-a-subnet"` is an
`InvalidFormat` failure and `"2001:db8::/32"` an `UnsupportedFamily` one. -/
theorem validate_subnet_error_taxonomy_witness :
    validate_subnet "not-a-subnet" = .error .InvalidFormat ∧
    validate_subnet "2001:db8::/32" = .error .UnsupportedFamily :=
  ⟨(validate_subnet_error_taxonomy "not-a-subnet").1 (by rfl),
   (validate_subnet_error_taxonomy "2001:db8::/32").2.1
     { addr := 42540766411282592856903984951653826560, prefixLen := 32 } (by rfl)⟩

/-- Counterexample to C9 as stated: `"10.0.0.1/8"` is a CIDR string whose
host bits are not all zero, yet `validate_subnet` does not succeed on it — it
fails with `RangeTooLarge`. -/
theorem validate_subnet_hostbits_counterexample :
    parseIPv4Addr "10.0.0.1".data = some 167772161 ∧
    (167772161 : Nat) % 2 ^ (32 - 8) ≠ 0 ∧
    validate_subnet "10.0.0.1/8" = .error .RangeTooLarge :=
  ⟨by rfl, by decide, by rfl⟩

/-- C9 (amended): every string that parses as an IPv4 CIDR yields the
canonical network value with host bits normalized to zero, and nonzero host
bits never cause a rejection: whenever the parsed network is within the size
cap, `validate_subnet` succeeds and returns that canonical network. -/
theorem validate_subnet_canonicalizes (s : String) (n : IPv4Network)
    (h : ip_network s = some (.v4 n)) :
    n.addr % 2 ^ (32 - n.prefixLen) = 0 ∧
    (n.num_addresses ≤ 4096 → validate_subnet s = .ok n) := by
  refine ⟨parseIPv4NetworkStr_masked (ip_network_v4 h), fun hle => ?_⟩
  have hv : validate_subnet s =
      if 4096 < n.num_addresses then .error .RangeTooLarge else .ok n := by
    simp only [validate_subnet, h]
  rw [hv, if_neg (by omega)]

/-- Witness for `validate_subnet_canonicalizes`: `"192.168.1.5/24"` succeeds
and yields the canonical network address `192.168.1.0`. -/
theorem validate_subnet_canonicalizes_witness :
    ip_network "192.168.1.5/24" = some (.v4 { addr := 3232235776, prefixLen := 24 }) ∧
    validate_subnet "192.168.1.5/24" = .ok { addr := 3232235776, prefixLen := 24 } ∧
    ipv4ToString 3232235776 = "192.168.1.0" :=
  ⟨by rfl,
   (validate_subnet_canonicalizes "192.168.1.5/24"
     { addr := 3232235776, prefixLen := 24 } (by rfl)).2 (by decide),
   by rfl⟩

/-! ### Facts about scanning -/

lemma scan_host_eq_none_iff (isOpen : String → Nat → Bool) (host : String) :
    scan_host isOpen host = none ↔
      (isOpen host 22 = false ∧ isOpen host 23 = false) := by
  simp only [scan_host]
  cases h22 : isOpen host 22 <;> cases h23 : isOpen host 23 <;> simp

lemma scan_host_eq_some (isOpen : String → Nat → Bool) (host : String) (r : ScanResult)
    (h : scan_host isOpen host = some r) :
    r.ip = host ∧
    r.open_ports = [22, 23].filter (fun p => isOpen host p) ∧
    r.protocols = r.open_ports.map portProtocol ∧
    r.open_ports ≠ [] ∧
    (isOpen host 22 = true ∨ isOpen host 23 = true) := by
  simp only [scan_host] at h
  cases h22 : isOpen host 22 <;> cases h23 : isOpen host 23 <;>
      rw [h22, h23] at h <;> simp at h <;> subst h
  · exact ⟨rfl, by simp [h22, h23], by simp [portProtocol], by simp, Or.inr rfl⟩
  · exact ⟨rfl, by simp [h22, h23], by simp [portProtocol], by simp, Or.inl rfl⟩
  · exact ⟨rfl, by simp [h22, h23], by simp [portProtocol], by simp, Or.inl rfl⟩

lemma map_ip_filterMap (isOpen : String → Nat → Bool) (l : List String) :
    (l.filterMap (scan_host isOpen)).map ScanResult.ip =
      l.filter (fun h => (scan_host isOpen h).isSome) := by
  induction l with
  | nil => rfl
  | cons h t ih =>
    cases hh : scan_host isOpen h with
    | none => simp [List.filterMap_cons, hh, ih]
    | some r =>
      have hip := (scan_host_eq_some isOpen h r hh).1
      simp [List.filterMap_cons, hh, ih, hip]

lemma scan_network_ok (isOpen : String → Nat → Bool) (s : String)
    (n : IPv4Network) (h : validate_subnet s = .ok n) :
    scan_network isOpen s =
      .ok (((n.hostsList.map ipv4ToString).map (scan_host isOpen)).filterMap id) := by
  simp only [scan_network, h]

/-- C3: a host contributes a `ScanResult` iff at least one of ports 22 and 23
is open on it; `open_ports` is `[22, 23]` filtered to the open ones (so port
22 always precedes port 23), `protocols` corresponds 1:1 to `open_ports`
via 22 ↦ "ssh" and 23 ↦ "telnet"; a host with neither port open is omitted
entirely and never yields an empty result row. -/
theorem scan_results_characterization (isOpen : String → Nat → Bool) (s : String)
    (n : IPv4Network) (h : validate_subnet s = .ok n) :
    scan_network isOpen s =
      .ok (((n.hostsList.map ipv4ToString).map (scan_host isOpen)).filterMap id) ∧
    (∀ host, scan_host isOpen host = none ↔
        (isOpen host 22 = false ∧ isOpen host 23 = false)) ∧
    (∀ r ∈ ((n.hostsList.map ipv4ToString).map (scan_host isOpen)).filterMap id,
        r.open_ports = [22, 23].filter (fun p => isOpen r.ip p) ∧
        r.protocols = r.open_ports.map portProtocol ∧
        r.open_ports ≠ [] ∧
        (isOpen r.ip 22 = true ∨ isOpen r.ip 23 = true)) ∧
    (∀ host ∈ n.hostsList.map ipv4ToString, ∀ r, scan_host isOpen host = some r →
        r ∈ ((n.hostsList.map ipv4ToString).map (scan_host isOpen)).filterMap id) := by
  refine ⟨scan_network_ok isOpen s n h, scan_host_eq_none_iff isOpen,
    fun r hr => ?_, fun host hh r hsome => ?_⟩
  · rw [List.filterMap_map, List.mem_filterMap] at hr
    obtain ⟨host, _, hsome⟩ := hr
    obtain ⟨hip, hports, hproto, hne, hopen⟩ := scan_host_eq_some isOpen host r hsome
    subst hip
    exact ⟨hports, hproto, hne, hopen⟩
  · rw [List.filterMap_map, List.mem_filterMap]
    exact ⟨host, hh, hsome⟩

/-- Witness for `scan_results_characterization`: with every port closed, the
host `10.0.0.1` of the validated network `10.0.0.0/30` yields no row. -/
theorem scan_results_characterization_witness :
    scan_host probeNone "10.0.0.1" = none :=
  ((scan_results_characterization probeNone "10.0.0.0/30"
      { addr := 167772160, prefixLen := 30 } (by rfl)).2.1 "10.0.0.1").mpr ⟨rfl, rfl⟩

/-- Counterexample to C6 as stated: `"192.168.0.0/31"` validates, and its
probed host list is precisely its two addresses — the network address
`192.168.0.0` and the broadcast address `192.168.0.1` are both probed rather
than excluded. -/
theorem scan_probes_network_address_slash31 :
    validate_subnet "192.168.0.0/31" = .ok { addr := 3232235520, prefixLen := 31 } ∧
    ({ addr := 3232235520, prefixLen := 31 } : IPv4Network).hostsList =
      [3232235520, 3232235521] :=
  ⟨by rfl, by rfl⟩

/-- C6 (amended): `scan_network` probes exactly the addresses enumerated by
`hosts()`: for a network with more than two addresses these are all addresses
strictly between the network and broadcast addresses; a /31 probes both of
its addresses and a /32 its single address. The probed list is strictly
ascending and the returned rows keep that ascending host order. -/
theorem scan_enumeration_order (isOpen : String → Nat → Bool) (s : String)
    (n : IPv4Network) (h : validate_subnet s = .ok n) :
    scan_network isOpen s =
      .ok (((n.hostsList.map ipv4ToString).map (scan_host isOpen)).filterMap id) ∧
    (2 < n.num_addresses → ∀ a, a ∈ n.hostsList ↔
        (n.addr ≤ a ∧ a < n.addr + n.num_addresses ∧ a ≠ n.addr ∧
         a ≠ n.addr + n.num_addresses - 1)) ∧
    (n.prefixLen = 31 → n.hostsList = [n.addr, n.addr + 1]) ∧
    (n.prefixLen = 32 → n.hostsList = [n.addr]) ∧
    n.hostsList.Pairwise (· < ·) ∧
    List.Sublist
      ((((n.hostsList.map ipv4ToString).map (scan_host isOpen)).filterMap id).map
        ScanResult.ip)
      (n.hostsList.map ipv4ToString) := by
  have hsize : ∀ hgt : 2 < n.num_addresses, n.prefixLen ≤ 30 := by
    intro hgt
    by_contra hp
    push_neg at hp
    have h1 : 32 - n.prefixLen ≤ 1 := by omega
    have h2 : (2 : Nat) ^ (32 - n.prefixLen) ≤ 2 ^ 1 :=
      Nat.pow_le_pow_right (by norm_num) h1
    have h3 : n.num_addresses = 2 ^ (32 - n.prefixLen) := rfl
    omega
  refine ⟨scan_network_ok isOpen s n h, fun hgt a => ?_, fun h31 => ?_, fun h32 => ?_,
    ?_, ?_⟩
  · have hp := hsize hgt
    have hl : n.hostsList = List.range' (n.addr + 1) (n.num_addresses - 2) := by
      simp only [IPv4Network.hostsList]
      rw [if_neg (by omega), if_neg (by omega)]
    rw [hl, List.mem_range']
    constructor
    · rintro ⟨i, hi, rfl⟩
      omega
    · rintro ⟨h1, h2, h3, h4⟩
      exact ⟨a - n.addr - 1, by omega, by omega⟩
  · simp only [IPv4Network.hostsList]
    rw [if_neg (by omega), if_pos h31]
  · simp only [IPv4Network.hostsList]
    rw [if_pos h32]
  · by_cases h32 : n.prefixLen = 32
    · simp [IPv4Network.hostsList, h32]
    · by_cases h31 : n.prefixLen = 31
      · simp [IPv4Network.hostsList, h31, h32]
      · simp only [IPv4Network.hostsList]
        rw [if_neg h32, if_neg h31]
        exact List.pairwise_lt_range' _ _
  · rw [List.filterMap_map]
    simp only [Function.id_comp]
    rw [map_ip_filterMap]
    exact List.filter_sublist _

/-- Witness for `scan_enumeration_order`: the validated network
`10.0.0.0/30` has a strictly ascending probed host list. -/
theorem scan_enumeration_order_witness :
    ({ addr := 167772160, prefixLen := 30 } : IPv4Network).hostsList.Pairwise (· < ·) :=
  (scan_enumeration_order probeNone "10.0.0.0/30"
    { addr := 167772160, prefixLen := 30 } (by rfl)).2.2.2.2.1

/-! ### Facts about the backup catalog -/

lemma charListLt_irrefl (u : List Char) : charListLt u u = false := by
  induction u with
  | nil => rfl
  | cons x xs ih => simp [charListLt, ih]

lemma charListLt_trans : ∀ (u v w : List Char), charListLt u v = true →
    charListLt v w = true → charListLt u w = true := by
  intro u
  induction u with
  | nil =>
    intro v w huv hvw
    cases v with
    | nil => simp [charListLt] at huv
    | cons y ys =>
      cases w with
      | nil => simp [charListLt] at hvw
      | cons z zs => rfl
  | cons x xs ih =>
    intro v w huv hvw
    cases v with
    | nil => simp [charListLt] at huv
    | cons y ys =>
      cases w with
      | nil => simp [charListLt] at hvw
      | cons z zs =>
        by_cases hxy : x = y
        · subst hxy
          by_cases hyz : x = z
          · subst hyz
            simp only [charListLt, if_pos rfl] at huv hvw ⊢
            exact ih ys zs huv hvw
          · simp only [charListLt, if_neg hyz] at hvw ⊢
            exact hvw
        · by_cases hyz : y = z
          · subst hyz
            simp only [charListLt, if_neg hxy] at huv ⊢
            exact huv
          · simp only [charListLt, if_neg hxy] at huv
            simp only [charListLt, if_neg hyz] at hvw
            have hx : x < y := of_decide_eq_true huv
            have hy : y < z := of_decide_eq_true hvw
            have hxz : x < z := lt_trans hx hy
            simp only [charListLt, if_neg (ne_of_lt hxz)]
            exact decide_eq_true hxz

lemma charListLt_total_of_ne : ∀ (u v : List Char), u ≠ v →
    (charListLt u v || charListLt v u) = true := by
  intro u
  induction u with
  | nil =>
    intro v hne
    cases v with
    | nil => exact absurd rfl hne
    | cons y ys => rfl
  | cons x xs ih =>
    intro v hne
    cases v with
    | nil => rfl
    | cons y ys =>
      by_cases hxy : x = y
      · subst hxy
        have hys : xs ≠ ys := fun hc => hne (by rw [hc])
        simp only [charListLt, if_pos rfl]
        exact ih ys hys
      · have hyx : ¬ y = x := fun h => hxy h.symm
        simp only [charListLt, if_neg hxy, if_neg hyx]
        rcases lt_or_gt_of_ne hxy with h | h
        · simp [h]
        · simp [h]

lemma strLtb_trans {a b c : String} (hab : strLtb a b = true)
    (hbc : strLtb b c = true) : strLtb a c = true :=
  charListLt_trans _ _ _ hab hbc

lemma strLtb_irrefl (a : String) : strLtb a a = false :=
  charListLt_irrefl _

lemma strLtb_total_of_ne {a b : String} (h : a ≠ b) :
    (strLtb a b || strLtb b a) = true :=
  charListLt_total_of_ne _ _ (fun hc => h (String.ext hc))

lemma partsLe_trans : ∀ (a b c : List String), partsLe a b = true →
    partsLe b c = true → partsLe a c = true := by
  intro a
  induction a with
  | nil => intro b c _ _; rfl
  | cons x xs ih =>
    intro b c hab hbc
    cases b with
    | nil => simp [partsLe] at hab
    | cons y ys =>
      cases c with
      | nil => simp [partsLe] at hbc
      | cons z zs =>
        by_cases hxy : x = y
        · subst hxy
          by_cases hyz : x = z
          · subst hyz
            simp only [partsLe, if_pos rfl] at hab hbc ⊢
            exact ih ys zs hab hbc
          · simp only [partsLe, if_neg hyz] at hbc ⊢
            exact hbc
        · by_cases hyz : y = z
          · subst hyz
            simp only [partsLe, if_neg hxy] at hab ⊢
            exact hab
          · simp only [partsLe, if_neg hxy] at hab
            simp only [partsLe, if_neg hyz] at hbc
            have hxz : strLtb x z = true := strLtb_trans hab hbc
            have hne : x ≠ z := by
              intro hc
              subst hc
              have h2 : strLtb x x = true := strLtb_trans hab hbc
              rw [strLtb_irrefl] at h2
              exact Bool.false_ne_true h2
            simp only [partsLe, if_neg hne]
            exact hxz

lemma partsLe_total : ∀ (a b : List String), (partsLe a b || partsLe b a) = true := by
  intro a
  induction a with
  | nil => intro b; rfl
  | cons x xs ih =>
    intro b
    cases b with
    | nil => rfl
    | cons y ys =>
      by_cases hxy : x = y
      · subst hxy
        simp only [partsLe, if_pos rfl]
        exact ih ys
      · have hyx : ¬ y = x := fun h => hxy h.symm
        simp only [partsLe, if_neg hxy, if_neg hyx]
        exact strLtb_total_of_ne hxy

lemma partsLe_append_same (p a b : List String) :
    partsLe (p ++ a) (p ++ b) = partsLe a b := by
  induction p with
  | nil => rfl
  | cons x xs ih => simp [partsLe, ih]

lemma entryLe_trans (a b c : FSEntry) (hab : entryLe a b) (hbc : entryLe b c) :
    entryLe a c :=
  partsLe_trans _ _ _ hab hbc

lemma entryLe_total (a b : FSEntry) : entryLe a b || entryLe b a :=
  partsLe_total _ _

/-- C7: `list_backup_files` returns `[]` (not an error) when the root does
not exist; otherwise it returns exactly one record per regular file with a
`.txt` name strictly under the root (as a permutation of those nodes'
records), each record carrying the root-relative path, the file name and the
mtime truncated to whole seconds; and the returned records are the image of a
node sequence sorted by the order `sorted` uses on paths — lexicographic
comparison of the (root-relative) component lists. -/
theorem list_backup_files_spec (fs : List FSEntry) (root : List String) :
    ((¬ ∃ e ∈ fs, e.parts = root) → list_backup_files fs root = []) ∧
    ((∃ e ∈ fs, e.parts = root) →
        (list_backup_files fs root).Perm
          ((fs.filter (fun e => rglobTxtMatch root e && e.isFile)).map
            (backupRecordOf root))) ∧
    (∀ r ∈ list_backup_files fs root, ∃ e, e ∈ fs ∧ e.isFile = true ∧
        root <+: e.parts ∧ e.parts ≠ root ∧
        nameEndsTxt (e.parts.getLastD "") = true ∧ r = backupRecordOf root e) ∧
    (∃ es : List FSEntry,
        list_backup_files fs root = es.map (backupRecordOf root) ∧
        es.Pairwise (fun a b =>
          partsLe (a.parts.drop root.length) (b.parts.drop root.length) = true) ∧
        ∀ e ∈ es, e ∈ fs ∧ rglobTxtMatch root e = true ∧ e.isFile = true) := by
  have hroot : (fs.any (fun e => decide (e.parts = root)) = true) ↔
      ∃ e ∈ fs, e.parts = root := by
    simp
  refine ⟨fun hne => ?_, fun hex => ?_, fun r hr => ?_, ?_⟩
  · have hfalse : fs.any (fun e => decide (e.parts = root)) = false := by
      rw [Bool.eq_false_iff]
      intro hc
      exact hne (hroot.mp hc)
    simp [list_backup_files, hfalse]
  · have hany := hroot.mpr hex
    have hout : list_backup_files fs root =
        (((fs.filter (rglobTxtMatch root)).mergeSort entryLe).filter
          (fun e => e.isFile)).map (backupRecordOf root) := by
      simp [list_backup_files, hany]
    rw [hout]
    have h1 : ((fs.filter (rglobTxtMatch root)).mergeSort entryLe).Perm
        (fs.filter (rglobTxtMatch root)) := List.mergeSort_perm _ _
    have h2 := (h1.filter (fun e => e.isFile)).map (backupRecordOf root)
    rw [List.filter_filter] at h2
    have h3 : fs.filter (fun a => a.isFile && rglobTxtMatch root a) =
        fs.filter (fun e => rglobTxtMatch root e && e.isFile) :=
      List.filter_congr (fun x _ => Bool.and_comm _ _)
    rw [h3] at h2
    exact h2
  · by_cases hany : fs.any (fun e => decide (e.parts = root)) = true
    · have hout : list_backup_files fs root =
          (((fs.filter (rglobTxtMatch root)).mergeSort entryLe).filter
            (fun e => e.isFile)).map (backupRecordOf root) := by
        simp [list_backup_files, hany]
      rw [hout] at hr
      rw [List.mem_map] at hr
      obtain ⟨e, he, rfl⟩ := hr
      rw [List.mem_filter] at he
      obtain ⟨hesort, hefile⟩ := he
      rw [List.mem_mergeSort, List.mem_filter] at hesort
      obtain ⟨hefs, hematch⟩ := hesort
      unfold rglobTxtMatch at hematch
      simp only [Bool.and_eq_true, decide_eq_true_eq, Bool.not_eq_true',
        decide_eq_false_iff_not] at hematch
      exact ⟨e, hefs, hefile, hematch.1.1, hematch.1.2, hematch.2, rfl⟩
    · have hfalse : fs.any (fun e => decide (e.parts = root)) = false :=
        Bool.eq_false_iff.mpr hany
      have hout : list_backup_files fs root = [] := by
        simp [list_backup_files, hfalse]
      rw [hout] at hr
      exact absurd hr (List.not_mem_nil r)
  · by_cases hany : fs.any (fun e => decide (e.parts = root)) = true
    · refine ⟨((fs.filter (rglobTxtMatch root)).mergeSort entryLe).filter
        (fun e => e.isFile), ?_, ?_, ?_⟩
      · simp [list_backup_files, hany]
      · have hsorted : ((fs.filter (rglobTxtMatch root)).mergeSort entryLe).Pairwise
            (fun a b => entryLe a b) :=
          List.sorted_mergeSort entryLe_trans entryLe_total _
        refine (hsorted.filter (fun e => e.isFile)).imp_of_mem ?_
        intro a b ha hb hab
        have hamem : rglobTxtMatch root a = true := by
          have := (List.mem_filter.mp ha).1
          exact (List.mem_filter.mp (List.mem_mergeSort.mp this)).2
        have hbmem : rglobTxtMatch root b = true := by
          have := (List.mem_filter.mp hb).1
          exact (List.mem_filter.mp (List.mem_mergeSort.mp this)).2
        unfold rglobTxtMatch at hamem hbmem
        simp only [Bool.and_eq_true, decide_eq_true_eq, Bool.not_eq_true',
          decide_eq_false_iff_not] at hamem hbmem
        obtain ⟨ta, hta⟩ := hamem.1.1
        obtain ⟨tb, htb⟩ := hbmem.1.1
        have hda : a.parts.drop root.length = ta := by
          rw [← hta, List.drop_left]
        have hdb : b.parts.drop root.length = tb := by
          rw [← htb, List.drop_left]
        rw [hda, hdb]
        have hab' : partsLe a.parts b.parts = true := hab
        rw [← hta, ← htb, partsLe_append_same] at hab'
        exact hab'
      · intro e he
        rw [List.mem_filter] at he
        obtain ⟨hesort, hefile⟩ := he
        rw [List.mem_mergeSort, List.mem_filter] at hesort
        exact ⟨hesort.1, hesort.2, hefile⟩
    · refine ⟨[], ?_, List.Pairwise.nil, by simp⟩
      simp [list_backup_files, Bool.eq_false_iff.mpr hany]

/-- Witness for `list_backup_files_spec`: a missing root lists as empty, and
a root holding one regular `.txt` file (mtime 2.5 s) lists exactly that file
with truncated mtime `"2"`. -/
theorem list_backup_files_spec_witness :
    list_backup_files [] ["b"] = [] ∧
    (list_backup_files
        [{ parts := ["b"], isFile := false, mtime := 0 },
         { parts := ["b", "x.txt"], isFile := true, mtime := sampleMtime }] ["b"]).Perm
      [{ path := "x.txt", name := "x.txt", modified := "2" }] := by
  constructor
  · exact (list_backup_files_spec [] ["b"]).1 (by simp)
  · have h := (list_backup_files_spec
        [{ parts := ["b"], isFile := false, mtime := 0 },
         { parts := ["b", "x.txt"], isFile := true, mtime := sampleMtime }] ["b"]).2.1
      ⟨{ parts := ["b"], isFile := false, mtime := 0 }, List.mem_cons_self _ _, rfl⟩
    have heq : ([{ parts := ["b"], isFile := false, mtime := 0 },
         { parts := ["b", "x.txt"], isFile := true, mtime := sampleMtime }].filter
          (fun e => rglobTxtMatch ["b"] e && e.isFile)).map (backupRecordOf ["b"]) =
        [{ path := "x.txt", name := "x.txt", modified := "2" }] := by rfl
    rw [heq] at h
    exact h

/-! ### Facts about the log broadcaster -/

lemma lookup_publish (q : Nat) (l : List (Nat × List LogEvent)) (ev : LogEvent) :
    (l.map (fun e => (e.1, e.2 ++ [ev]))).lookup q =
      (l.lookup q).map (fun es => es ++ [ev]) := by
  induction l with
  | nil => rfl
  | cons e t ih =>
    obtain ⟨k, es⟩ := e
    cases hqk : (q == k)
    · simp [List.lookup, hqk, ih]
    · simp [List.lookup, hqk]

lemma lookup_cons_ne {q k : Nat} {es : List LogEvent} {t : List (Nat × List LogEvent)}
    (h : q ≠ k) : List.lookup q ((k, es) :: t) = List.lookup q t := by
  cases hqk : (q == k)
  · simp [List.lookup, hqk]
  · exact absurd (eq_of_beq hqk) h

lemma lookup_cons_self {q : Nat} {es : List LogEvent} {t : List (Nat × List LogEvent)} :
    List.lookup q ((q, es) :: t) = some es := by
  simp [List.lookup]

lemma lookup_filter_ne (q q' : Nat) (hqq : q ≠ q') (l : List (Nat × List LogEvent)) :
    (l.filter (fun e => e.1 ≠ q')).lookup q = l.lookup q := by
  induction l with
  | nil => rfl
  | cons e t ih =>
    obtain ⟨k, es⟩ := e
    rw [List.filter_cons]
    by_cases hk : k = q'
    · have hcond : (decide ((k, es).1 ≠ q')) = false := by simp [hk]
      rw [hcond, if_neg Bool.false_ne_true]
      have hqk : q ≠ k := fun hc => hqq (by rw [hc, hk])
      rw [lookup_cons_ne hqk, ih]
    · have hcond : (decide ((k, es).1 ≠ q')) = true := by simp [hk]
      rw [hcond, if_pos rfl]
      by_cases hqk : q = k
      · subst hqk
        rw [lookup_cons_self, lookup_cons_self]
      · rw [lookup_cons_ne hqk, lookup_cons_ne hqk, ih]

lemma lookup_append_left {q : Nat} {l₁ l₂ : List (Nat × List LogEvent)}
    {v : List LogEvent} (h : l₁.lookup q = some v) : (l₁ ++ l₂).lookup q = some v := by
  induction l₁ with
  | nil => simp [List.lookup] at h
  | cons e t ih =>
    obtain ⟨k, es⟩ := e
    by_cases hqk : q = k
    · subst hqk
      rw [lookup_cons_self] at h
      rw [List.cons_append, lookup_cons_self]
      exact h
    · rw [lookup_cons_ne hqk] at h
      rw [List.cons_append, lookup_cons_ne hqk]
      exact ih h

lemma lookup_none_append {q : Nat} {l₁ l₂ : List (Nat × List LogEvent)}
    (h : l₁.lookup q = none) : (l₁ ++ l₂).lookup q = l₂.lookup q := by
  induction l₁ with
  | nil => rfl
  | cons e t ih =>
    obtain ⟨k, es⟩ := e
    by_cases hqk : q = k
    · subst hqk
      rw [lookup_cons_self] at h
      exact absurd h (by simp)
    · rw [lookup_cons_ne hqk] at h
      rw [List.cons_append, lookup_cons_ne hqk]
      exact ih h

lemma lookup_none_of_forall {q : Nat} :
    ∀ {l : List (Nat × List LogEvent)}, (∀ e ∈ l, e.1 ≠ q) → l.lookup q = none := by
  intro l
  induction l with
  | nil => intro _; rfl
  | cons e t ih =>
    intro h
    obtain ⟨k, es⟩ := e
    have hk : k ≠ q := h (k, es) (List.mem_cons_self _ _)
    rw [lookup_cons_ne (fun hc => hk hc.symm)]
    exact ih (fun e he => h e (List.mem_cons_of_mem _ he))

lemma lookup_run_no_unsub (ops : List LogOp) :
    ∀ (s : LogStreamState) (q : Nat) (acc : List LogEvent),
      s.subs.lookup q = some acc →
      (∀ op ∈ ops, op ≠ .unsubscribe q) →
      ((s.run ops).subs.lookup q) = some (acc ++ pubsOf ops) := by
  induction ops with
  | nil =>
    intro s q acc h _
    simpa [LogStreamState.run, pubsOf] using h
  | cons op rest ih =>
    intro s q acc h hops
    have hrest : ∀ o ∈ rest, o ≠ .unsubscribe q :=
      fun o ho => hops o (List.mem_cons_of_mem _ ho)
    have hop : op ≠ .unsubscribe q := hops op (List.mem_cons_self _ _)
    show (((s.step op).run rest).subs.lookup q) = some (acc ++ pubsOf (op :: rest))
    cases op with
    | subscribe q' =>
      by_cases hq' : s.subs.any (fun e => e.1 = q') = true
      · have hstep : s.step (.subscribe q') = s := by
          simp [LogStreamState.step, hq']
        rw [hstep]
        simpa [pubsOf] using ih s q acc h hrest
      · have hany : s.subs.any (fun e => e.1 = q') = false :=
          Bool.eq_false_iff.mpr hq'
        have hlook : (s.step (.subscribe q')).subs.lookup q = some acc := by
          show (if s.subs.any (fun e => e.1 = q') then s
            else ⟨s.subs ++ [(q', [])]⟩).subs.lookup q = some acc
          rw [hany]
          show ((s.subs ++ [(q', [])]).lookup q) = some acc
          exact lookup_append_left h
        simpa [pubsOf] using ih _ q acc hlook hrest
    | unsubscribe q' =>
      have hqq : q ≠ q' := by
        intro hc
        exact hop (by rw [hc])
      have hlook : (s.step (.unsubscribe q')).subs.lookup q = some acc := by
        show ((s.subs.filter (fun e => e.1 ≠ q')).lookup q) = some acc
        rw [lookup_filter_ne q q' hqq]
        exact h
      simpa [pubsOf] using ih _ q acc hlook hrest
    | publish ts msg lvl =>
      have hlook : (s.step (.publish ts msg lvl)).subs.lookup q =
          some (acc ++ [{ timestamp := ts, level := lvl, message := msg }]) := by
        show ((s.subs.map _).lookup q) = _
        rw [lookup_publish, h]
        rfl
      have hr := ih _ q (acc ++ [{ timestamp := ts, level := lvl, message := msg }])
        hlook hrest
      rw [hr]
      simp [pubsOf, List.filterMap_cons, List.append_assoc]

/-- C4: only the subscribers registered when `publish` snapshots the registry
receive that event.  A subscriber whose queue joins after a prefix of the
trace receives exactly the events published after it joined, in order: no
event from before its subscription, and its first visible event is the next
one published after it joins. -/
theorem publish_not_retroactive (s₀ : LogStreamState) (pre post : List LogOp) (q : Nat)
    (hfresh : ∀ e ∈ (s₀.run pre).subs, e.1 ≠ q)
    (hpost : ∀ op ∈ post, op ≠ .unsubscribe q) :
    ((s₀.run (pre ++ .subscribe q :: post)).subs.lookup q) = some (pubsOf post) := by
  have hrun : s₀.run (pre ++ .subscribe q :: post) =
      ((s₀.run pre).step (.subscribe q)).run post := by
    simp [LogStreamState.run, List.foldl_append]
  rw [hrun]
  have hany : ((s₀.run pre).subs.any (fun e => e.1 = q)) = false := by
    rw [Bool.eq_false_iff]
    intro hc
    rw [List.any_eq_true] at hc
    obtain ⟨e, he, heq⟩ := hc
    exact hfresh e he (by simpa using heq)
  have hnone : (s₀.run pre).subs.lookup q = none := lookup_none_of_forall hfresh
  have hlook : (((s₀.run pre).step (.subscribe q)).subs).lookup q = some [] := by
    show (if (s₀.run pre).subs.any (fun e => e.1 = q) then s₀.run pre
      else ⟨(s₀.run pre).subs ++ [(q, [])]⟩).subs.lookup q = some []
    rw [hany]
    show (((s₀.run pre).subs ++ [(q, [])]).lookup q) = some []
    rw [lookup_none_append hnone]
    simp [List.lookup]
  simpa using lookup_run_no_unsub post _ q [] hlook hpost

/-- Witness for `publish_not_retroactive`: an event published before the
subscription is not delivered; the queue holds exactly the later event. -/
theorem publish_not_retroactive_witness :
    ((LogStreamState.run ⟨[]⟩
        [.publish "t0" "m0" "info", .subscribe 0,
         .publish "t1" "m1" "info"]).subs.lookup 0) =
      some [{ timestamp := "t1", level := "info", message := "m1" }] :=
  publish_not_retroactive ⟨[]⟩ [.publish "t0" "m0" "info"]
    [.publish "t1" "m1" "info"] 0 (by decide) (by decide)

/-- C5: two subscribers registered throughout a trace each receive every
published event exactly once, appended in publish order to their queues
(FIFO), so both see the same events in the same relative order; and
unsubscribing one of them does not change what the other receives. -/
theorem broadcast_fifo_isolation (s₀ : LogStreamState) (ops : List LogOp) (a b : Nat)
    (la lb : List LogEvent) (hab : a ≠ b)
    (ha : s₀.subs.lookup a = some la) (hb : s₀.subs.lookup b = some lb)
    (hopsa : ∀ op ∈ ops, op ≠ .unsubscribe a)
    (hopsb : ∀ op ∈ ops, op ≠ .unsubscribe b) :
    ((s₀.run ops).subs.lookup a) = some (la ++ pubsOf ops) ∧
    ((s₀.run ops).subs.lookup b) = some (lb ++ pubsOf ops) ∧
    ((s₀.run (ops ++ [.unsubscribe b])).subs.lookup a) = some (la ++ pubsOf ops) := by
  refine ⟨lookup_run_no_unsub ops s₀ a la ha hopsa,
    lookup_run_no_unsub ops s₀ b lb hb hopsb, ?_⟩
  have hrun : s₀.run (ops ++ [.unsubscribe b]) = (s₀.run ops).step (.unsubscribe b) := by
    simp [LogStreamState.run, List.foldl_append]
  rw [hrun]
  show (((s₀.run ops).subs.filter (fun e => e.1 ≠ b)).lookup a) = _
  rw [lookup_filter_ne a b hab]
  exact lookup_run_no_unsub ops s₀ a la ha hopsa

/-- Witness for `broadcast_fifo_isolation`: both live subscribers get the
published event, and unsubscribing the second leaves the first unchanged. -/
theorem broadcast_fifo_isolation_witness :
    ((LogStreamState.run ⟨[(0, []), (1, [])]⟩
        [.publish "t" "m" "info"]).subs.lookup 0) =
      some [{ timestamp := "t", level := "info", message := "m" }] ∧
    ((LogStreamState.run ⟨[(0, []), (1, [])]⟩
        [.publish "t" "m" "info"]).subs.lookup 1) =
      some [{ timestamp := "t", level := "info", message := "m" }] ∧
    ((LogStreamState.run ⟨[(0, []), (1, [])]⟩
        [.publish "t" "m" "info", .unsubscribe 1]).subs.lookup 0) =
      some [{ timestamp := "t", level := "info", message := "m" }] :=
  broadcast_fifo_isolation ⟨[(0, []), (1, [])]⟩ [.publish "t" "m" "info"] 0 1 [] []
    (by decide) (by rfl) (by rfl) (by decide) (by decide)
